import Mathlib

/-!
Shallow embedding of the `ihatesheets` repository (Python) in Lean 4.

Strings are modelled as `List Char`; Python `None`/exceptions become
`Option`/explicit error values; the Redis cache becomes explicit lists of
keys; the external collaborators (gspread's generic id extractor, the
network download) become oracle parameters.  Every definition below is a
direct transcription of the corresponding Python function in `src/`.
-/

/-! ### Python string primitives -/

/-- Whitespace as recognised by Python's `str.split()` / `str.strip()`
(ASCII fragment; the repository only manipulates ASCII labels and URLs). -/
def pyIsSpace (c : Char) : Bool :=
  c == ' ' || c == '\t' || c == '\n' || c == '\r' || c == '\x0b' || c == '\x0c'

/-- Python `str.strip()`. -/
def pyStrip (s : List Char) : List Char :=
  ((s.dropWhile pyIsSpace).reverse.dropWhile pyIsSpace).reverse

/-- Python `str.lower()` (ASCII fragment). -/
def lowerL (s : List Char) : List Char :=
  s.map Char.toLower

/-- `x.lower().strip()` — the combination used throughout `transformations.py`. -/
def pyLowerStrip (s : List Char) : List Char :=
  pyStrip (lowerL s)

/-- `prefixList p s` is true when `p` is a prefix of `s`. -/
def prefixList : List Char → List Char → Bool
  | [], _ => true
  | _ :: _, [] => false
  | a :: as, b :: bs => a == b && prefixList as bs

/-- Helper for `str.find`: index (counting from `i`) of the first occurrence
of `needle` in the remaining haystack. -/
def pyFindGo (needle : List Char) : List Char → Nat → Option Nat
  | [], i => if needle.isEmpty then some i else none
  | c :: cs, i =>
    if prefixList needle (c :: cs) then some i else pyFindGo needle cs (i + 1)

/-- Python `hay.find(needle)`: first index or `-1`. -/
def pyFind (hay needle : List Char) : Int :=
  match pyFindGo needle hay 0 with
  | some i => (i : Int)
  | none => -1

/-- Python `needle in hay` (substring containment). -/
def hasSubstr (needle hay : List Char) : Bool :=
  (pyFindGo needle hay 0).isSome

/-- Python slice `s[i:]`, including the negative-index convention. -/
def pySliceFrom (s : List Char) (i : Int) : List Char :=
  if 0 ≤ i then s.drop i.toNat
  else s.drop (max ((s.length : Int) + i) 0).toNat

/-- Worker for `str.split()` with an accumulator holding the token read so
far (in reverse). -/
def splitWsGo : List Char → List Char → List (List Char)
  | [], acc => if acc.isEmpty then [] else [acc.reverse]
  | c :: cs, acc =>
    if pyIsSpace c then
      if acc.isEmpty then splitWsGo cs [] else acc.reverse :: splitWsGo cs []
    else splitWsGo cs (c :: acc)

/-- Python `str.split()` (split on whitespace runs, no empty tokens). -/
def pySplitWs (s : List Char) : List (List Char) :=
  splitWsGo s []

/-- Python `str.split(maxsplit=1)`. -/
def pySplitMax1 (s : List Char) : List (List Char) :=
  let t := s.dropWhile pyIsSpace
  if t.isEmpty then []
  else
    let tok := t.takeWhile (fun c => !pyIsSpace c)
    let rest := (t.dropWhile (fun c => !pyIsSpace c)).dropWhile pyIsSpace
    if rest.isEmpty then [tok] else [tok, rest]

/-- Python `str.isdigit()` (ASCII fragment). -/
def pyIsDigit (s : List Char) : Bool :=
  !s.isEmpty && s.all Char.isDigit

/-- Numeric value of a digit string. -/
def digitsVal (s : List Char) : Nat :=
  s.foldl (fun a c => 10 * a + (c.toNat - '0'.toNat)) 0

/-- Python `int(s)` on ASCII inputs: strip whitespace, take an optional
sign and a digit run; `none` models `ValueError`. -/
def pyInt (s : List Char) : Option Int :=
  match pyStrip s with
  | [] => none
  | c :: ds =>
    if c == '+' then
      if pyIsDigit ds then some (Int.ofNat (digitsVal ds)) else none
    else if c == '-' then
      if pyIsDigit ds then some (-(Int.ofNat (digitsVal ds))) else none
    else if pyIsDigit (c :: ds) then some (Int.ofNat (digitsVal (c :: ds)))
    else none

/-! ### models.py -/

/-- `Author.__post_init__` flair computation on a non-empty flair text:
try the first whitespace token if it is all digits, else `int` of the
second sub-token of the remainder; any `ValueError`/`IndexError` gives 0. -/
def flairFromText (t : List Char) : Int :=
  let attempt : Option Int := do
    let parts := pySplitMax1 t
    let p0 ← parts.get? 0
    if pyIsDigit p0 then pyInt p0
    else do
      let p1 ← parts.get? 1
      let s1 ← (pySplitWs p1).get? 1
      pyInt s1
  attempt.getD 0

/-- Flair rank derived from an optional flair text (`if flair_text:` also
treats the empty string as absent). -/
def parseFlair : Option (List Char) → Int
  | none => 0
  | some t => if t.isEmpty then 0 else flairFromText t

/-- `models.Author` (msgspec struct) after `__post_init__` ran. -/
structure Author where
  name : List Char
  flair : Int
  author_flair_text : Option (List Char)
deriving DecidableEq, Repr

/-- Construct an `Author` the way the Python constructor plus
`__post_init__` does. -/
def mkAuthor (name : List Char) (ft : Option (List Char)) : Author :=
  ⟨name, parseFlair ft, ft⟩

/-- A raw downloaded cell grid (cells may be missing, i.e. NaN). -/
abbrev Grid := List (List (Option (List Char)))

/-- `models.SheetPost` (the fields `created`/`sheet_dl_date` hold abstract
instants as integers). -/
structure SheetPost where
  id : List Char
  title : List Char
  created : Int
  shortlink : List Char
  num_comments : Int := 0
  score : Int := 0
  author : Option Author := none
  sheet_id : Option (List Char) := none
  sheet_url : Option (List Char) := none
  sheet_dl_date : Option Int := none
  sheet_raw : Option Grid := none
deriving DecidableEq, Repr

/-! ### transformations.py : canonical schema and synonym table -/

/-- `mapping_keys = list(Spreadsheet.__struct_fields__)` — the canonical
schema field names, in declaration order. -/
def mapping_keys : List (List Char) :=
  ["price", "manufacturer", "mold", "plastic", "color", "condition", "ink",
   "picture", "price_shipped", "stamp", "weight", "status", "notes",
   "weight_scaled", "sheet_id", "sheet_url"].map String.toList

/-- `mappings_list` — the synonym tuples, in source order. -/
def mappings_list : List (List (List Char)) :=
  [["price", "bin", "buy it now", "amount", "cost"],
   ["manuf", "company", "brand", "mfg"],
   ["mold", "mold name", "model", "disc", "name"],
   ["plastic"],
   ["color", "colour"],
   ["condition", "cond.", "rating"],
   ["ink", "marked"],
   ["image", "photo", "pic"],
   ["shipp"],
   ["stamp"],
   ["weight", "grams"],
   ["status"],
   ["note", "comment", "details"],
   ["scale"]].map (List.map String.toList)

/-- `mappings = dict(zip(mapping_keys, mappings_list))`: `zip` truncates to
the 14 synonym tuples, dropping `sheet_id`/`sheet_url`. -/
def mappings : List (List Char × List (List Char)) :=
  mapping_keys.zip mappings_list

/-- `header_match_count`: the dict comprehension
`{key: counter[key] for key in row}` is keyed by the row values, so
duplicate labels collapse to one entry; the sum therefore counts the
distinct row labels that are canonical field names. -/
def header_match_count (row : List (List Char)) : Nat :=
  (row.eraseDups.filter (fun k => mapping_keys.contains k)).length

/-! ### transformations.py : header detection -/

/-- A DataFrame as used by `header_find`: explicit column labels plus cell
rows (a `none` cell is NaN). -/
structure DataFrame where
  cols : List (List Char)
  rows : List (List (Option (List Char)))
deriving DecidableEq, Repr

/-- The per-row test inside `search_rows_for_header` after
`fillna('')`: the row must be non-empty and, lower-cased and stripped,
contain some canonical field name verbatim. -/
def rowQualifies (row : List (Option (List Char))) : Bool :=
  let values := (row.map (fun c => c.getD [])).map pyLowerStrip
  !row.isEmpty && mapping_keys.any (fun h => values.contains h)

/-- The `for i, row in dataframe.iterrows()` scan: first qualifying row
index. -/
def search_rows_go : List (List (Option (List Char))) → Nat → Option Nat
  | [], _ => none
  | r :: rs, i => if rowQualifies r then some i else search_rows_go rs (i + 1)

/-- `search_rows_for_header`. -/
def search_rows_for_header (df : DataFrame) : Option Nat :=
  search_rows_go df.rows 0

/-- Where `header_find` located the header. -/
inductive HeaderLoc where
  | column : HeaderLoc
  | row : Nat → HeaderLoc
deriving DecidableEq, Repr

/-- The dictionary returned by `header_find` on success. -/
structure FindResult where
  loc : HeaderLoc
  col_values : List (List Char)
  match_count : Nat
deriving DecidableEq, Repr

/-- `header_find`: phase A tests the existing column labels with a `≥ 2`
threshold; phase B re-tests the first row found by
`search_rows_for_header` (on the `fillna`-filled frame) with a strict
`> 2` threshold. -/
def header_find (df : DataFrame) : Option FindResult :=
  let df_cols := df.cols.map pyLowerStrip
  let count := header_match_count df_cols
  if 2 ≤ count then some ⟨.column, df_cols, count⟩
  else
    match search_rows_for_header df with
    | some i =>
      let row := (df.rows.getD i []).map (fun c => c.getD [])
      let cols2 := row.map pyLowerStrip
      let count2 := header_match_count cols2
      if 2 < count2 then some ⟨.row i, cols2, count2⟩ else none
    | none => none

/-! ### transformations.py : header mapping -/

/-- The body of `map_headers`' outer `for key, possible_values in
mappings.items()` loop for a single raw label: an exact match of the
lowered label appends the key and leaves the loop; a substring match
appends the key but only leaves the *inner* loop, so the scan over the
remaining canonical fields continues. -/
def scanKeys (h : List Char) : List (List Char × List (List Char)) → List (List Char)
  | [] => []
  | (key, vals) :: rest =>
    if vals.contains (lowerL h) then [key]
    else if vals.any (fun v => hasSubstr (lowerL v) (lowerL h)) then
      key :: scanKeys h rest
    else scanKeys h rest

/-- What one raw label contributes to `new_headers` (the label itself when
`mapped` stayed false). -/
def processHeader (tbl : List (List Char × List (List Char))) (h : List Char) :
    List (List Char) :=
  match scanKeys h tbl with
  | [] => [h]
  | out => out

/-- `map_headers`. -/
def map_headers (headers : List (List Char))
    (tbl : List (List Char × List (List Char))) : List (List Char) :=
  match headers with
  | [] => []
  | h :: hs => processHeader tbl h ++ map_headers hs tbl

/-! ### sheets.py : URL extraction -/

/-- `BASE_URL = "https://docs.google.com/"`. -/
def BASE_URL : List Char :=
  "https://docs.google.com/".toList

/-- Python exceptions surfaced by the embedded pipeline. -/
inductive PyErr where
  | indexError : PyErr
  | attributeError : PyErr
deriving DecidableEq, Repr

/-- `clean_url`: take the first whitespace token starting at the first
occurrence of `BASE_URL` (`comment[comment.find(BASE_URL):].split()[0]`,
where `find` may be `-1`, i.e. a slice from the last character), then cut
at the first `]`, strip one trailing `.`, delete `)` and `\` when a `\` is
present, and delete `)` when one is present.  `none` models the
`IndexError` of `[0]` on an empty split. -/
def clean_url (comment : List Char) : Option (List Char) :=
  let rest := pySliceFrom comment (pyFind comment BASE_URL)
  match (pySplitWs rest).get? 0 with
  | none => none
  | some tok =>
    let u1 := if tok.contains ']' then tok.takeWhile (fun c => !(c == ']')) else tok
    let u2 := if u1.getLast? == some '.' then u1.dropLast else u1
    let u3 :=
      if u2.contains '\\' then
        (u2.filter (fun c => !(c == ')'))).filter (fun c => !(c == '\\'))
      else u2
    let u4 := if u3.contains ')' then u3.filter (fun c => !(c == ')')) else u3
    some u4

/-! ### sheets.py : document-id resolution -/

/-- `[a-zA-Z0-9-_]` — the character class of the id patterns. -/
def idClass (c : Char) : Bool :=
  c.isAlpha || c.isDigit || c == '-' || c == '_'

/-- Match a literal at the head of the haystack, returning the remainder. -/
def dropAfter : List Char → List Char → Option (List Char)
  | [], s => some s
  | _ :: _, [] => none
  | a :: as, b :: bs => if a == b then dropAfter as bs else none

/-- `re.search(lit + "([a-zA-Z0-9-_]+)", s)`: at each position try the
literal followed by a non-empty maximal id-class run; advance one
character on failure, exactly like the regex engine's search loop. -/
def searchCap (lit : List Char) : List Char → Option (List Char)
  | [] => none
  | c :: cs =>
    match dropAfter lit (c :: cs) with
    | some rest =>
      let cap := rest.takeWhile idClass
      if cap.isEmpty then searchCap lit cs else some cap
    | none => searchCap lit cs

/-- `gen_doc_id`: the two narrow patterns first, then the generic gspread
`extract_id_from_url` utility, modelled as an oracle (`none` models its
`NoValidUrlKeyFound` exception, which the source catches and turns into
`None`). -/
def gen_doc_id (extractId : List Char → Option (List Char)) (sheet_url : List Char) :
    Option (List Char) :=
  match searchCap "/spreadsheets/d/e/".toList sheet_url with
  | some g => some g
  | none =>
    match searchCap "/spreadsheets/u/0/d/".toList sheet_url with
    | some g => some g
    | none => extractId sheet_url

/-! ### sheets.py : post parsing -/

/-- A raw praw submission as consumed by `parse_submissions` /
`find_sheet_url` (`author` is `None` for deleted accounts;
`author_flair_text` lives on the submission itself). -/
structure RawComment where
  body : List Char
deriving DecidableEq, Repr

/-- A raw forum post. -/
structure RawPost where
  id : List Char
  title : List Char
  created_utc : Int
  shortlink : List Char
  num_comments : Int
  score : Int
  author : Option (List Char)
  author_flair_text : Option (List Char)
  selftext : List Char
  url : List Char
  comments : List RawComment
deriving DecidableEq, Repr

/-- `find_sheet_url`: title, then non-empty selftext, then the link URL
when selftext is empty, then the first comment containing the base URL.
The `Except` layer carries the (unreachable in practice) `IndexError`
that `clean_url` could raise. -/
def find_sheet_url (post : RawPost) : Except PyErr (Option (List Char)) :=
  if hasSubstr BASE_URL post.title then
    match clean_url post.title with
    | some u => .ok (some u)
    | none => .error .indexError
  else if !post.selftext.isEmpty && hasSubstr BASE_URL post.selftext then
    match clean_url post.selftext with
    | some u => .ok (some u)
    | none => .error .indexError
  else if post.selftext.isEmpty && hasSubstr BASE_URL post.url then
    .ok (some post.url)
  else
    match post.comments.find? (fun c => hasSubstr BASE_URL c.body) with
    | some c =>
      match clean_url c.body with
      | some u => .ok (some u)
      | none => .error .indexError
    | none => .ok none

/-- The cache key `f"post:{post.id}"`. -/
def postKey (id : List Char) : List Char :=
  "post:".toList ++ id

/-- Result of a `parse_submissions` run: the returned list, the cache
writes done so far (in order), and the exception that aborted the loop,
if any — writes performed before a crash persist. -/
structure ParseResult where
  sheet_posts : List SheetPost
  writes : List (List Char × SheetPost)
  err : Option PyErr
deriving DecidableEq, Repr

/-- `parse_submissions`: skip posts whose `post:{id}` key is cached;
otherwise find a sheet URL, build the `Author` from `post.author.name`
(an `AttributeError` when the account is deleted — the access is
unguarded in the source), construct a `SheetPost` and cache it under
`post:{id}`; only posts with a URL are appended to the returned list. -/
def parse_submissions (postCache : List (List Char))
    (extractId : List Char → Option (List Char)) :
    List RawPost → ParseResult
  | [] => ⟨[], [], none⟩
  | post :: rest =>
    if postCache.contains (postKey post.id) then
      parse_submissions postCache extractId rest
    else
      match find_sheet_url post with
      | .error e => ⟨[], [], some e⟩
      | .ok urlOpt =>
        match post.author with
        | none => ⟨[], [], some .attributeError⟩
        | some authorName =>
          let author := mkAuthor authorName post.author_flair_text
          let r := parse_submissions postCache extractId rest
          match urlOpt with
          | some sheet_url =>
            let submission : SheetPost :=
              { id := post.id, title := post.title, created := post.created_utc,
                shortlink := post.shortlink, num_comments := post.num_comments,
                score := post.score, author := some author,
                sheet_id := gen_doc_id extractId sheet_url,
                sheet_url := some sheet_url }
            ⟨submission :: r.sheet_posts, (postKey post.id, submission) :: r.writes, r.err⟩
          | none =>
            let submission : SheetPost :=
              { id := post.id, title := post.title, created := post.created_utc,
                shortlink := post.shortlink, num_comments := post.num_comments,
                score := post.score, author := some author,
                sheet_id := none, sheet_url := none }
            ⟨r.sheet_posts, (postKey post.id, submission) :: r.writes, r.err⟩

/-! ### sheets.py : dedup and sorting -/

/-- Worker for `unique_sheets` with the `seen_sheet_ids` set made
explicit. -/
def unique_sheets_go : List SheetPost → List (List Char) → List SheetPost
  | [], _ => []
  | post :: rest, seen =>
    match post.sheet_id with
    | some sid =>
      if seen.contains sid then unique_sheets_go rest seen
      else post :: unique_sheets_go rest (sid :: seen)
    | none => unique_sheets_go rest seen

/-- `unique_sheets`: keep the first occurrence of each non-`None`
`sheet_id`. -/
def unique_sheets (sheet_posts : List SheetPost) : List SheetPost :=
  unique_sheets_go sheet_posts []

/-- Worker for `dedupe_submissions` with the `seen_ids` set explicit. -/
def dedupe_submissions_go : List SheetPost → List (List Char) → List SheetPost
  | [], _ => []
  | post :: rest, seen =>
    if seen.contains post.id then dedupe_submissions_go rest seen
    else post :: dedupe_submissions_go rest (post.id :: seen)

/-- `dedupe_submissions`. -/
def dedupe_submissions (submissions : List SheetPost) : List SheetPost :=
  dedupe_submissions_go submissions []

/-- Stable insertion of a post into a list already sorted by descending
`created`: an earlier element with an equal key keeps its place. -/
def insertDesc (p : SheetPost) : List SheetPost → List SheetPost
  | [] => [p]
  | q :: qs => if q.created ≤ p.created then p :: q :: qs else q :: insertDesc p qs

/-- `posts.sort(key=lambda x: x.created, reverse=True)` — Python's sort is
stable, so it computes the unique stable descending order, which this
insertion sort also computes. -/
def sortDesc : List SheetPost → List SheetPost
  | [] => []
  | p :: ps => insertDesc p (sortDesc ps)

/-! ### sheets.py : sheet cache and downloads -/

/-- The hash field `f"sheet:{sheet_id}"` (Python renders `None` as the
string `None`). -/
def sheetKey : Option (List Char) → List Char
  | some sid => "sheet:".toList ++ sid
  | none => "sheet:None".toList

/-- `check_cache`: `cache.hexists(hash="sheets", key=f"sheet:{sheet_id}")`,
with the set of fields of the `sheets` hash made explicit. -/
def check_cache (cachedKeys : List (List Char)) (sheet_id : Option (List Char)) : Bool :=
  cachedKeys.contains (sheetKey sheet_id)

/-- `add_sheet_data`: for each post whose sheet is not hash-cached, call
`download_sheet` (the network is the oracle `dl`); a successful download
produces an updated `SheetPost` carrying the grid and the download
instant `now` (the source rebuilds the record without `num_comments` and
`score`, so they reset to their defaults).  The first component records
the ids passed to `download_sheet`, in order. -/
def add_sheet_data (cachedKeys : List (List Char))
    (dl : Option (List Char) → Option Grid) (now : Int) :
    List SheetPost → List (Option (List Char)) × List SheetPost
  | [] => ([], [])
  | sheet :: rest =>
    if check_cache cachedKeys sheet.sheet_id then
      add_sheet_data cachedKeys dl now rest
    else
      let r := add_sheet_data cachedKeys dl now rest
      match dl sheet.sheet_id with
      | some g =>
        let updated : SheetPost :=
          { id := sheet.id, title := sheet.title, created := sheet.created,
            shortlink := sheet.shortlink, author := sheet.author,
            sheet_id := sheet.sheet_id, sheet_url := sheet.sheet_url,
            sheet_raw := some g, sheet_dl_date := some now }
        (sheet.sheet_id :: r.1, updated :: r.2)
      | none => (sheet.sheet_id :: r.1, r.2)

/-- The download attempts a `sheet_query` run issues: `add_sheet_data`
applied to `unique_sheets` of the parsed posts, as in the pipeline. -/
def pipelineAttempts (cachedKeys : List (List Char))
    (dl : Option (List Char) → Option Grid) (now : Int)
    (posts : List SheetPost) : List (Option (List Char)) :=
  (add_sheet_data cachedKeys dl now (unique_sheets posts)).1

/-- Outcome of one `gc.open_by_key ... get_all_values` attempt in
`gen_df_gspread`, as classified by the source's string tests on the
exception. -/
inductive DLOutcome where
  | ok : DLOutcome
  | quota : DLOutcome
  | unsupported : DLOutcome
  | other : DLOutcome
deriving DecidableEq, Repr

/-- Observable events of the fallback download loop. -/
inductive Ev where
  | attempt : Ev
  | sleep : Nat → Ev
deriving DecidableEq, Repr

/-- The `while retries < max_retries` loop of `gen_df_gspread` with
`max_retries = 3`.  `fuel = 3 - retries`; `k` numbers the attempts fed to
the oracle.  Success and the unsupported-operation error leave the loop;
a quota error sleeps 65 and loops (even when the retry budget is now
exhausted); any other error sleeps 5 and loops, except on the last
allowed attempt, where the loop breaks without sleeping. -/
def gspreadGo (oracle : Nat → DLOutcome) : Nat → Nat → List Ev → Bool × List Ev
  | 0, _, evs => (false, evs)
  | n + 1, k, evs =>
    match oracle k with
    | .ok => (true, evs ++ [.attempt])
    | .unsupported => (false, evs ++ [.attempt])
    | .quota => gspreadGo oracle n (k + 1) (evs ++ [.attempt, .sleep 65])
    | .other =>
      if n = 0 then (false, evs ++ [.attempt])
      else gspreadGo oracle n (k + 1) (evs ++ [.attempt, .sleep 5])

/-- `gen_df_gspread`: whether a grid was obtained, plus the observable
attempt/sleep trace. -/
def gen_df_gspread (oracle : Nat → DLOutcome) : Bool × List Ev :=
  gspreadGo oracle 3 0 []

/-- `gen_df`: primary `pd.read_csv` export fetch (oracle `primary`), with
the gspread loop as fallback when it fails. -/
def gen_df (primary : Option Grid) (oracle : Nat → DLOutcome) (g : Grid) :
    Option Grid × List Ev :=
  match primary with
  | some grid => (some grid, [])
  | none =>
    let r := gen_df_gspread oracle
    (if r.1 then some g else none, r.2)

/-- Number of download attempts in a trace. -/
def countAttempts (evs : List Ev) : Nat :=
  evs.countP (fun e => e == Ev.attempt)

/-! ### Generic helper lemmas -/

/-- `countAttempts` over an appended singleton. -/
theorem countAttempts_append (evs l : List Ev) :
    countAttempts (evs ++ l) = countAttempts evs + countAttempts l := by
  simp [countAttempts, List.countP_append]

/-- The fallback loop performs at most `fuel` further attempts. -/
theorem gspreadGo_attempts_le (oracle : Nat → DLOutcome) :
    ∀ n k evs, countAttempts (gspreadGo oracle n k evs).2 ≤ countAttempts evs + n := by
  intro n
  induction n with
  | zero => intro k evs; simp [gspreadGo]
  | succ n ih =>
    intro k evs
    unfold gspreadGo
    cases oracle k with
    | ok => simp [countAttempts_append, countAttempts]
    | unsupported => simp [countAttempts_append, countAttempts]
    | quota =>
      have := ih (k + 1) (evs ++ [.attempt, .sleep 65])
      simp [countAttempts_append, countAttempts] at this ⊢
      omega
    | other =>
      by_cases hn : n = 0
      · rw [if_pos hn]; simp [countAttempts_append, countAttempts]
      · rw [if_neg hn]
        have := ih (k + 1) (evs ++ [.attempt, .sleep 5])
        simp [countAttempts_append, countAttempts] at this ⊢
        omega

/-- Claim C4: on the fallback API download path, a quota/rate-limit error
causes a fixed 65-unit wait and a retry, any other transient error a
fixed 5-unit wait and a retry, both bounded at 3 attempts total after
which the download fails, and an unsupported-operation error aborts
immediately with zero retries. -/
theorem c4_retry_policy :
    (∀ oracle, countAttempts (gen_df_gspread oracle).2 ≤ 3) ∧
    gen_df_gspread (fun _ => DLOutcome.quota) =
      (false, [Ev.attempt, Ev.sleep 65, Ev.attempt, Ev.sleep 65, Ev.attempt, Ev.sleep 65]) ∧
    gen_df_gspread (fun _ => DLOutcome.other) =
      (false, [Ev.attempt, Ev.sleep 5, Ev.attempt, Ev.sleep 5, Ev.attempt]) ∧
    (∀ oracle, oracle 0 = DLOutcome.unsupported →
      gen_df_gspread oracle = (false, [Ev.attempt])) := by
  refine ⟨fun oracle => ?_, by rfl, by rfl, fun oracle h => ?_⟩
  · have := gspreadGo_attempts_le oracle 3 0 []
    simpa [gen_df_gspread, countAttempts] using this
  · simp [gen_df_gspread, gspreadGo, h]

/-- Witness for C4: an unsupported-document error on the first attempt
yields failure after exactly one attempt and no sleeps. -/
theorem c4_retry_policy_witness :
    gen_df_gspread (fun _ => DLOutcome.unsupported) = (false, [Ev.attempt]) :=
  c4_retry_policy.2.2.2 (fun _ => DLOutcome.unsupported) rfl

/-! ### Claim C2 : header mapping -/

/-- One synonym entry matches the label `h` neither exactly nor as a
substring. -/
def kvNoMatch (h : List Char) (kv : List Char × List (List Char)) : Bool :=
  !kv.2.contains (lowerL h) && !kv.2.any (fun v => hasSubstr (lowerL v) (lowerL h))

/-- No canonical field's synonyms match the label `h` at all. -/
def noSynonymMatch (h : List Char) : Bool :=
  mappings.all (kvNoMatch h)

/-- A label matching no synonym entry contributes no key. -/
theorem scanKeys_eq_nil (h : List Char) :
    ∀ tbl : List (List Char × List (List Char)),
      tbl.all (kvNoMatch h) = true → scanKeys h tbl = [] := by
  intro tbl
  induction tbl with
  | nil => intro _; rfl
  | cons kv rest ih =>
    intro hall
    rw [List.all_cons, Bool.and_eq_true] at hall
    obtain ⟨hkv, hrest⟩ := hall
    unfold kvNoMatch at hkv
    rw [Bool.and_eq_true, Bool.not_eq_true', Bool.not_eq_true'] at hkv
    obtain ⟨h1, h2⟩ := hkv
    obtain ⟨key, vals⟩ := kv
    simp only [scanKeys]
    rw [h1, h2, if_neg (by simp), if_neg (by simp)]
    exact ih hrest

/-- Every label contributes at least one output entry. -/
theorem processHeader_ne_nil (tbl : List (List Char × List (List Char)))
    (h : List Char) : processHeader tbl h ≠ [] := by
  unfold processHeader
  cases hs : scanKeys h tbl with
  | nil => simp
  | cons a l => simp

/-- `map_headers` never shortens the label list. -/
theorem map_headers_length_ge (tbl : List (List Char × List (List Char))) :
    ∀ hs : List (List Char), hs.length ≤ (map_headers hs tbl).length := by
  intro hs
  induction hs with
  | nil => simp [map_headers]
  | cons h t ih =>
    simp only [map_headers, List.length_append, List.length_cons]
    have h1 : 1 ≤ (processHeader tbl h).length :=
      Nat.one_le_iff_ne_zero.mpr (by simpa using processHeader_ne_nil tbl h)
    omega

/-- Claim C2 (amended): `map_headers` returns a list of length at least
the input's, each raw label contributing at least one output label (a
substring match emits a key without stopping the scan over the remaining
canonical fields, so one label can contribute several); a label matching
no synonym passes through unchanged. -/
theorem c2_map_headers_amended :
    (∀ hs : List (List Char), hs.length ≤ (map_headers hs mappings).length) ∧
    (∀ h hs, noSynonymMatch h = true →
      map_headers (h :: hs) mappings = h :: map_headers hs mappings) := by
  refine ⟨fun hs => map_headers_length_ge mappings hs, fun h hs hm => ?_⟩
  have hnil : scanKeys h mappings = [] := scanKeys_eq_nil h mappings hm
  simp [map_headers, processHeader, hnil]

/-- Witness for C2 (amended): the spec's own example labels map to three
outputs, and an unrecognised label passes through unchanged. -/
theorem c2_map_headers_amended_witness :
    3 ≤ (map_headers (["bin", "mfg", "mold name"].map String.toList) mappings).length ∧
    map_headers [String.toList "zzz"] mappings = [String.toList "zzz"] :=
  ⟨c2_map_headers_amended.1 (["bin", "mfg", "mold name"].map String.toList),
   by rw [c2_map_headers_amended.2 (String.toList "zzz") [] (by decide)]; rfl⟩

/-- Claim C2 counterexample: the raw label `"mold color"` is substring-
matched by the `mold` synonyms and then again by the `color` synonyms, so
it contributes two output labels and the output is longer than the
input — refuting "returns a list of exactly the same length in which each
raw label contributes exactly one output label". -/
theorem c2_map_headers_counterexample :
    map_headers [String.toList "mold color"] mappings =
      [String.toList "mold", String.toList "color"] ∧
    (map_headers [String.toList "mold color"] mappings).length ≠
      [String.toList "mold color"].length := by
  exact ⟨by decide, by decide⟩

/-! ### Claim C7 : flair rank -/

/-- A list all of whose characters fail `p` is unchanged by `dropWhile p`. -/
theorem dropWhile_eq_self_of_all {p : Char → Bool} {s : List Char}
    (h : ∀ c ∈ s, p c = false) : s.dropWhile p = s := by
  cases s with
  | nil => rfl
  | cons c cs => simp [List.dropWhile_cons, h c (by simp)]

/-- `str.strip()` leaves a whitespace-free string unchanged. -/
theorem pyStrip_eq_self {s : List Char} (h : ∀ c ∈ s, pyIsSpace c = false) :
    pyStrip s = s := by
  unfold pyStrip
  rw [dropWhile_eq_self_of_all h,
    dropWhile_eq_self_of_all (fun c hc => h c (List.mem_reverse.mp hc)),
    List.reverse_reverse]

/-- A digit character never `==`-equals a non-digit character. -/
theorem beq_eq_false_of_isDigit {c d : Char} (h : c.isDigit = true)
    (hd : d.isDigit = false) : (c == d) = false := by
  cases hcd : c == d
  · rfl
  · rw [beq_iff_eq.mp hcd] at h
    rw [h] at hd
    cases hd

/-- A digit character is not Python whitespace. -/
theorem isDigit_not_space {c : Char} (h : c.isDigit = true) : pyIsSpace c = false := by
  unfold pyIsSpace
  rw [beq_eq_false_of_isDigit h (by decide), beq_eq_false_of_isDigit h (by decide),
    beq_eq_false_of_isDigit h (by decide), beq_eq_false_of_isDigit h (by decide),
    beq_eq_false_of_isDigit h (by decide), beq_eq_false_of_isDigit h (by decide)]
  rfl

/-- `int` of an all-digit string succeeds with its (non-negative) value. -/
theorem pyInt_of_isDigit {ds : List Char} (h : pyIsDigit ds = true) :
    pyInt ds = some (Int.ofNat (digitsVal ds)) := by
  have hall : ∀ c ∈ ds, c.isDigit = true := by
    unfold pyIsDigit at h
    rw [Bool.and_eq_true, List.all_eq_true] at h
    exact fun c hc => h.2 c hc
  have hstrip : pyStrip ds = ds :=
    pyStrip_eq_self (fun c hc => isDigit_not_space (hall c hc))
  cases ds with
  | nil => simp [pyIsDigit] at h
  | cons c cs =>
    have hc : c.isDigit = true := hall c (by simp)
    have hplus : (c == '+') = false := beq_eq_false_of_isDigit hc (by decide)
    have hminus : (c == '-') = false := beq_eq_false_of_isDigit hc (by decide)
    simp only [pyInt, hstrip, hplus, hminus, Bool.false_eq_true, if_false, h, if_true]

/-- The empty flair text splits to no tokens. -/
theorem pySplitMax1_nil : pySplitMax1 [] = [] := by decide

/-- Claim C7 (amended): the flair rank defaults to 0 when the flair text
is absent or empty, and whenever the first whitespace token of the flair
text is all digits the rank is that token's (non-negative) value; the
second-token fallback path, however, can produce negative ranks. -/
theorem c7_flair_amended :
    parseFlair none = 0 ∧
    (∀ nm : List Char, ∀ t p0 : List Char,
      (pySplitMax1 t).get? 0 = some p0 → pyIsDigit p0 = true →
      (mkAuthor nm (some t)).flair = Int.ofNat (digitsVal p0) ∧
      0 ≤ (mkAuthor nm (some t)).flair) := by
  refine ⟨rfl, fun nm t p0 hp0 hdig => ?_⟩
  have ht : t.isEmpty = false := by
    cases t with
    | nil => rw [pySplitMax1_nil] at hp0; cases hp0
    | cons c cs => rfl
  have hval : (mkAuthor nm (some t)).flair = Int.ofNat (digitsVal p0) := by
    show parseFlair (some t) = _
    rw [show parseFlair (some t) = if t.isEmpty = true then 0 else flairFromText t from rfl,
      ht, if_neg (by simp)]
    unfold flairFromText
    simp only [hp0, Option.bind_eq_bind, Option.some_bind, hdig, if_true,
      pyInt_of_isDigit hdig]
    rfl
  exact ⟨hval, by rw [hval]; exact Int.ofNat_nonneg _⟩

/-- Witness for C7 (amended): flair text `"7 trades"` yields the
non-negative rank 7. -/
theorem c7_flair_amended_witness :
    0 ≤ (mkAuthor (String.toList "user") (some (String.toList "7 trades"))).flair :=
  (c7_flair_amended.2 (String.toList "user") (String.toList "7 trades")
    (String.toList "7") (by decide) (by decide)).2

/-- Claim C7 counterexample: the flair text `"a b -3"` takes the
second-token path (`int(flair_parts[1].split()[1])`), which parses the
signed literal `-3`, so the derived rank is negative — refuting "the
derived flair rank is a non-negative integer". -/
theorem c7_flair_counterexample :
    (mkAuthor (String.toList "user") (some (String.toList "a b -3"))).flair = -3 ∧
    (mkAuthor (String.toList "user") (some (String.toList "a b -3"))).flair < 0 := by
  exact ⟨by decide, by decide⟩

/-! ### Claim C9 : deleted author -/

/-- A raw post whose author account is deleted (`post.author is None`)
and which contains no document link. -/
def deletedAuthorPost : RawPost :=
  { id := String.toList "d1", title := String.toList "spreadsheet",
    created_utc := 0, shortlink := [], num_comments := 0, score := 0,
    author := none, author_flair_text := none,
    selftext := [], url := [], comments := [] }

/-- Claim C9 (code bug): on a post whose author account is deleted,
`parse_submissions` evaluates `post.author.name` unguarded, so the run
aborts with an `AttributeError`: no `SheetPost` is constructed and
nothing is written to the post cache, contrary to the specified
behaviour (construct with an absent author and cache the post). -/
theorem c9_deleted_author_crash :
    parse_submissions [] (fun _ => none) [deletedAuthorPost] =
      ⟨[], [], some PyErr.attributeError⟩ := by
  rfl

/-! ### Claims C3 and C10 : header detection -/

/-- Phase A acceptance: at least two distinct canonical labels among the
lower-cased, stripped column labels make `header_find` return the
column-row sentinel with that distinct count. -/
theorem header_find_column_of_ge (df : DataFrame)
    (hc : 2 ≤ header_match_count (df.cols.map pyLowerStrip)) :
    header_find df = some ⟨HeaderLoc.column, df.cols.map pyLowerStrip,
      header_match_count (df.cols.map pyLowerStrip)⟩ := by
  simp only [header_find]
  rw [if_pos hc]

/-- Case analysis of a successful `header_find`. -/
theorem header_find_cases (df : DataFrame) (r : FindResult)
    (h : header_find df = some r) :
    (2 ≤ header_match_count (df.cols.map pyLowerStrip) ∧
      r = ⟨HeaderLoc.column, df.cols.map pyLowerStrip,
        header_match_count (df.cols.map pyLowerStrip)⟩) ∨
    (¬ 2 ≤ header_match_count (df.cols.map pyLowerStrip) ∧
      ∃ i, search_rows_for_header df = some i ∧
        2 < r.match_count ∧ r.loc = HeaderLoc.row i) := by
  simp only [header_find] at h
  by_cases hc : 2 ≤ header_match_count (df.cols.map pyLowerStrip)
  · rw [if_pos hc] at h
    injection h with h
    exact Or.inl ⟨hc, h.symm⟩
  · rw [if_neg hc] at h
    refine Or.inr ⟨hc, ?_⟩
    cases hs : search_rows_for_header df with
    | none => rw [hs] at h; cases h
    | some i =>
      simp only [hs] at h
      by_cases h2 : 2 < header_match_count
          (((df.rows.getD i []).map (fun c => c.getD [])).map pyLowerStrip)
      · rw [if_pos h2] at h
        injection h with h
        exact ⟨i, rfl, by rw [← h]; exact h2, by rw [← h]⟩
      · rw [if_neg h2] at h
        cases h

/-- Claim C3 (amended): `header_find` accepts the existing column row as
the header exactly when at least 2 *distinct* lower-cased, trimmed labels
are literal canonical-schema field names (duplicate labels collapse in the
count), returning the column-row sentinel and that distinct count; a row
found by the data-row scan is accepted only when its distinct canonical
match count is strictly greater than 2. -/
theorem c3_detect_amended (df : DataFrame) :
    (2 ≤ header_match_count (df.cols.map pyLowerStrip) ↔
      ∃ r, header_find df = some r ∧ r.loc = HeaderLoc.column) ∧
    (∀ r, header_find df = some r → r.loc = HeaderLoc.column →
      r.match_count = header_match_count (df.cols.map pyLowerStrip) ∧
      r.col_values = df.cols.map pyLowerStrip) ∧
    (∀ r i, header_find df = some r → r.loc = HeaderLoc.row i →
      2 < r.match_count) := by
  refine ⟨⟨fun hc => ⟨_, header_find_column_of_ge df hc, rfl⟩, fun hex => ?_⟩, ?_, ?_⟩
  · obtain ⟨r, hr, hloc⟩ := hex
    rcases header_find_cases df r hr with ⟨hc, _⟩ | ⟨_, i, _, _, hrow⟩
    · exact hc
    · rw [hrow] at hloc; simp at hloc
  · intro r hr hloc
    rcases header_find_cases df r hr with ⟨_, hre⟩ | ⟨_, i, _, _, hrow⟩
    · rw [hre]; exact ⟨rfl, rfl⟩
    · rw [hrow] at hloc; simp at hloc
  · intro r i hr hloc
    rcases header_find_cases df r hr with ⟨_, hre⟩ | ⟨_, j, _, h2, _⟩
    · rw [hre] at hloc; simp at hloc
    · exact h2

/-- A grid with a preamble row above a buried header row, used to exhibit
the row-scan acceptance. -/
def dfPreamble : DataFrame :=
  ⟨["a", "b", "c", "d", "e"].map String.toList,
   [(["sheet from", "", "", "", ""].map (fun s => some s.toList)),
    (["", "mold", "plastic", "price", ""].map (fun s => some s.toList))]⟩

/-- The result `header_find` produces on `dfPreamble`. -/
def rPreamble : FindResult :=
  ⟨HeaderLoc.row 1, ["", "mold", "plastic", "price", ""].map String.toList, 3⟩

/-- Witness for C3 (amended): on a concrete grid whose header is buried at
row 1 with 3 canonical matches, the accepted result indeed has a match
count strictly above 2. -/
theorem c3_detect_amended_witness : 2 < rPreamble.match_count :=
  (c3_detect_amended dfPreamble).2.2 rPreamble 1 (by decide) (by decide)

/-- A grid whose column row repeats the same canonical label twice. -/
def dfDupCols : DataFrame :=
  ⟨["price", "price"].map String.toList,
   [[some (String.toList "1"), some (String.toList "2")]]⟩

/-- Claim C3 counterexample: in `dfDupCols` two of the lower-cased,
trimmed column labels are literal canonical field names, yet
`header_find` rejects the grid entirely, because the dict comprehension
inside `header_match_count` collapses duplicate labels and counts only
one distinct match — refuting acceptance "exactly when at least 2 of its
lower-cased, trimmed labels are literal canonical-schema field names". -/
theorem c3_detect_counterexample :
    2 ≤ (dfDupCols.cols.map pyLowerStrip).countP (fun l => mapping_keys.contains l) ∧
    header_find dfDupCols = none := by
  exact ⟨by decide, by decide⟩

/-- The row scan stops at the first row containing any canonical field
name verbatim: all earlier rows fail the qualification test, and the
reported index is that first qualifying row. -/
theorem search_rows_go_spec :
    ∀ (rs : List (List (Option (List Char)))) (k i : Nat),
      search_rows_go rs k = some i →
      ∃ m, i = k + m ∧
        (∀ j rj, j < m → rs.get? j = some rj → rowQualifies rj = false) := by
  intro rs
  induction rs with
  | nil => intro k i h; simp [search_rows_go] at h
  | cons r rest ih =>
    intro k i h
    unfold search_rows_go at h
    by_cases hq : rowQualifies r = true
    · rw [if_pos hq] at h
      injection h with h
      exact ⟨0, by omega, fun j rj hj _ => absurd hj (Nat.not_lt_zero j)⟩
    · rw [if_neg hq] at h
      obtain ⟨m, him, hmin⟩ := ih (k + 1) i h
      refine ⟨m + 1, by omega, fun j rj hj hget => ?_⟩
      cases j with
      | zero =>
        rw [List.get?_cons_zero] at hget
        injection hget with hget
        rw [← hget]
        revert hq
        cases rowQualifies r <;> simp
      | succ j =>
        rw [List.get?_cons_succ] at hget
        exact hmin j rj (by omega) hget

/-- Claim C10: in the header-detection row scan, only the first
(top-to-bottom) row containing any canonical field name verbatim is ever
evaluated against the match-count threshold: every earlier row fails the
qualification test, and when that first row's distinct canonical match
count is 2 or fewer (and phase A failed), `header_find` reports not-found
for the whole grid. -/
theorem c10_first_candidate_row (df : DataFrame) (i : Nat)
    (hs : search_rows_for_header df = some i) :
    (∀ j rj, j < i → df.rows.get? j = some rj → rowQualifies rj = false) ∧
    (header_match_count (df.cols.map pyLowerStrip) < 2 →
      header_match_count (((df.rows.getD i []).map (fun c => c.getD [])).map pyLowerStrip) ≤ 2 →
      header_find df = none) := by
  obtain ⟨m, him, hmin⟩ := search_rows_go_spec df.rows 0 i hs
  constructor
  · intro j rj hj hget
    exact hmin j rj (by omega) hget
  · intro hcols hrow
    simp only [header_find]
    rw [if_neg (by omega)]
    simp only [hs]
    rw [if_neg (by omega)]

/-! ### Claim C1 : at-most-one download attempt per document id -/

/-- Every post surviving `unique_sheets_go` has a sheet id, and that id is
not in the `seen` set the call started from. -/
theorem unique_sheets_go_not_seen :
    ∀ (l : List SheetPost) (seen : List (List Char)) (p : SheetPost),
      p ∈ unique_sheets_go l seen → ∃ sid, p.sheet_id = some sid ∧ sid ∉ seen := by
  intro l
  induction l with
  | nil => intro seen p hp; simp [unique_sheets_go] at hp
  | cons q rest ih =>
    intro seen p hp
    unfold unique_sheets_go at hp
    cases hq : q.sheet_id with
    | none => simp only [hq] at hp; exact ih seen p hp
    | some sid =>
      simp only [hq] at hp
      by_cases hseen : seen.contains sid = true
      · rw [if_pos hseen] at hp
        exact ih seen p hp
      · rw [if_neg hseen] at hp
        rcases List.mem_cons.mp hp with rfl | hp'
        · exact ⟨sid, hq, fun hmem => hseen (List.elem_iff.mpr hmem)⟩
        · obtain ⟨s, hs, hns⟩ := ih _ p hp'
          exact ⟨s, hs, fun hmem => hns (List.mem_cons_of_mem _ hmem)⟩

/-- The sheet ids of the posts kept by `unique_sheets_go` are pairwise
distinct. -/
theorem unique_sheets_go_ids_nodup :
    ∀ (l : List SheetPost) (seen : List (List Char)),
      ((unique_sheets_go l seen).map SheetPost.sheet_id).Nodup := by
  intro l
  induction l with
  | nil => intro seen; simp [unique_sheets_go]
  | cons q rest ih =>
    intro seen
    unfold unique_sheets_go
    cases hq : q.sheet_id with
    | none => simp only [hq]; exact ih seen
    | some sid =>
      simp only [hq]
      by_cases hseen : seen.contains sid = true
      · rw [if_pos hseen]; exact ih seen
      · rw [if_neg hseen]
        simp only [List.map_cons, List.nodup_cons]
        refine ⟨fun hmem => ?_, ih _⟩
        rw [hq] at hmem
        obtain ⟨p, hp, hps⟩ := List.mem_map.mp hmem
        obtain ⟨s, hs, hns⟩ := unique_sheets_go_not_seen _ _ p hp
        rw [hs] at hps
        injection hps with hps
        exact hns (hps ▸ List.mem_cons_self sid seen)

/-- The attempt list of `add_sheet_data` is a sublist of the incoming
posts' sheet ids. -/
theorem add_sheet_data_attempts_sublist (cachedKeys : List (List Char))
    (dl : Option (List Char) → Option Grid) (now : Int) :
    ∀ l : List SheetPost,
      List.Sublist (add_sheet_data cachedKeys dl now l).1 (l.map SheetPost.sheet_id) := by
  intro l
  induction l with
  | nil => simp [add_sheet_data]
  | cons s rest ih =>
    unfold add_sheet_data
    by_cases hc : check_cache cachedKeys s.sheet_id = true
    · rw [if_pos hc]
      exact ih.trans (List.sublist_cons_self _ _)
    · rw [if_neg hc]
      cases dl s.sheet_id with
      | some g => exact List.Sublist.cons₂ _ ih
      | none => exact List.Sublist.cons₂ _ ih

/-- Every id in the attempt list failed the cache check. -/
theorem add_sheet_data_attempts_not_cached (cachedKeys : List (List Char))
    (dl : Option (List Char) → Option Grid) (now : Int) :
    ∀ (l : List SheetPost) (x : Option (List Char)),
      x ∈ (add_sheet_data cachedKeys dl now l).1 →
      check_cache cachedKeys x = false := by
  intro l
  induction l with
  | nil => intro x hx; simp [add_sheet_data] at hx
  | cons s rest ih =>
    intro x hx
    unfold add_sheet_data at hx
    by_cases hc : check_cache cachedKeys s.sheet_id = true
    · rw [if_pos hc] at hx
      exact ih x hx
    · rw [if_neg hc] at hx
      have hcf : check_cache cachedKeys s.sheet_id = false := by
        revert hc; cases check_cache cachedKeys s.sheet_id <;> simp
      cases hdl : dl s.sheet_id with
      | some g =>
        rw [hdl] at hx
        rcases List.mem_cons.mp hx with rfl | hx'
        · exact hcf
        · exact ih x hx'
      | none =>
        rw [hdl] at hx
        rcases List.mem_cons.mp hx with rfl | hx'
        · exact hcf
        · exact ih x hx'

/-- Claim C1: in a pipeline run (`unique_sheets` then `add_sheet_data`,
as composed by `sheet_query`), a document id already present in the
`sheets` hash-cache under field `sheet:{id}` receives zero download
attempts, and at most one download attempt is made per unique document id. -/
theorem c1_download_attempts (cachedKeys : List (List Char))
    (dl : Option (List Char) → Option Grid) (now : Int) (posts : List SheetPost) :
    (∀ sid : List Char, cachedKeys.contains (String.toList "sheet:" ++ sid) = true →
      some sid ∉ pipelineAttempts cachedKeys dl now posts) ∧
    (pipelineAttempts cachedKeys dl now posts).Nodup := by
  constructor
  · intro sid hsid hmem
    have hnc := add_sheet_data_attempts_not_cached cachedKeys dl now
      (unique_sheets posts) (some sid) hmem
    unfold check_cache sheetKey at hnc
    rw [hsid] at hnc
    cases hnc
  · exact (unique_sheets_go_ids_nodup posts []).sublist
      (add_sheet_data_attempts_sublist cachedKeys dl now (unique_sheets posts))

/-- A post whose sheet is already hash-cached. -/
def cachedSheetPost : SheetPost :=
  { id := String.toList "c1", title := [], created := 5, shortlink := [],
    sheet_id := some (String.toList "CACHED"),
    sheet_url := some (String.toList "https://docs.google.com/spreadsheets/d/CACHED") }

/-- A post with a fresh sheet id. -/
def freshSheetPost : SheetPost :=
  { id := String.toList "c2", title := [], created := 4, shortlink := [],
    sheet_id := some (String.toList "NEW"),
    sheet_url := some (String.toList "https://docs.google.com/spreadsheets/d/NEW") }

/-- A second post referencing the same fresh sheet id. -/
def freshSheetPostDup : SheetPost :=
  { id := String.toList "c3", title := [], created := 3, shortlink := [],
    sheet_id := some (String.toList "NEW"),
    sheet_url := some (String.toList "https://docs.google.com/spreadsheets/d/NEW") }

/-- Witness for C1: with `sheet:CACHED` already in the hash-cache and two
posts sharing the fresh id `NEW`, the cached id is never attempted and
the attempt list is duplicate-free. -/
theorem c1_download_attempts_witness :
    some (String.toList "CACHED") ∉
      pipelineAttempts [String.toList "sheet:CACHED"] (fun _ => none) 0
        [cachedSheetPost, freshSheetPost, freshSheetPostDup] ∧
    (pipelineAttempts [String.toList "sheet:CACHED"] (fun _ => none) 0
        [cachedSheetPost, freshSheetPost, freshSheetPostDup]).Nodup :=
  ⟨(c1_download_attempts [String.toList "sheet:CACHED"] (fun _ => none) 0
      [cachedSheetPost, freshSheetPost, freshSheetPostDup]).1
      (String.toList "CACHED") (by decide),
   (c1_download_attempts [String.toList "sheet:CACHED"] (fun _ => none) 0
      [cachedSheetPost, freshSheetPost, freshSheetPostDup]).2⟩

/-! ### Claim C8 : dedup by document id after the descending sort -/

/-- Membership through `insertDesc`. -/
theorem mem_insertDesc {p q : SheetPost} :
    ∀ {l : List SheetPost}, q ∈ insertDesc p l ↔ q = p ∨ q ∈ l := by
  intro l
  induction l with
  | nil => simp [insertDesc]
  | cons x xs ih =>
    unfold insertDesc
    by_cases h : x.created ≤ p.created
    · rw [if_pos h]
      simp [List.mem_cons]
    · rw [if_neg h]
      simp only [List.mem_cons, ih]
      tauto

/-- Membership through `sortDesc`. -/
theorem mem_sortDesc {q : SheetPost} :
    ∀ {l : List SheetPost}, q ∈ sortDesc l ↔ q ∈ l := by
  intro l
  induction l with
  | nil => simp [sortDesc]
  | cons x xs ih =>
    unfold sortDesc
    rw [mem_insertDesc]
    simp [List.mem_cons, ih]

/-- `insertDesc` preserves the descending-`created` ordering. -/
theorem pairwise_insertDesc {p : SheetPost} :
    ∀ {l : List SheetPost},
      l.Pairwise (fun a b => b.created ≤ a.created) →
      (insertDesc p l).Pairwise (fun a b => b.created ≤ a.created) := by
  intro l
  induction l with
  | nil => intro _; simp [insertDesc]
  | cons x xs ih =>
    intro h
    rcases List.pairwise_cons.mp h with ⟨hx, hxs⟩
    unfold insertDesc
    by_cases hc : x.created ≤ p.created
    · rw [if_pos hc]
      refine List.pairwise_cons.mpr ⟨?_, h⟩
      intro b hb
      rcases List.mem_cons.mp hb with rfl | hb'
      · exact hc
      · exact le_trans (hx b hb') hc
    · rw [if_neg hc]
      refine List.pairwise_cons.mpr ⟨?_, ih hxs⟩
      intro b hb
      rcases mem_insertDesc.mp hb with rfl | hb'
      · omega
      · exact hx b hb'

/-- The stable descending sort is sorted by descending `created`. -/
theorem sortDesc_pairwise :
    ∀ l : List SheetPost,
      (sortDesc l).Pairwise (fun a b => b.created ≤ a.created) := by
  intro l
  induction l with
  | nil => simp [sortDesc]
  | cons x xs ih => exact pairwise_insertDesc ih

/-- When `sid` is already in the `seen` set, no kept post carries it. -/
theorem unique_sheets_go_countP_zero (sid : List Char)
    (l : List SheetPost) (seen : List (List Char)) (h : sid ∈ seen) :
    ((unique_sheets_go l seen).countP (fun p => p.sheet_id == some sid)) = 0 := by
  rw [List.countP_eq_zero]
  intro p hp
  obtain ⟨s, hs, hns⟩ := unique_sheets_go_not_seen l seen p hp
  simp only [hs, beq_iff_eq, Option.some.injEq]
  intro hss
  exact hns (hss ▸ h)

/-- Exactly one kept post carries `sid` when some input post does (and
`sid` was not already seen). -/
theorem unique_sheets_go_countP (sid : List Char) :
    ∀ (l : List SheetPost) (seen : List (List Char)), sid ∉ seen →
      ((unique_sheets_go l seen).countP (fun p => p.sheet_id == some sid)) =
        (if ∃ p ∈ l, p.sheet_id = some sid then 1 else 0) := by
  intro l
  induction l with
  | nil => intro seen _; simp [unique_sheets_go]
  | cons q rest ih =>
    intro seen hns
    unfold unique_sheets_go
    cases hq : q.sheet_id with
    | none =>
      simp only [hq]
      rw [ih seen hns]
      have hiff : (∃ p ∈ q :: rest, p.sheet_id = some sid) ↔
          (∃ p ∈ rest, p.sheet_id = some sid) := by
        constructor
        · rintro ⟨p, hp, hps⟩
          rcases List.mem_cons.mp hp with rfl | hp'
          · rw [hq] at hps; cases hps
          · exact ⟨p, hp', hps⟩
        · rintro ⟨p, hp, hps⟩
          exact ⟨p, List.mem_cons_of_mem _ hp, hps⟩
      rw [if_congr hiff rfl rfl]
    | some s =>
      simp only [hq]
      by_cases hseen : seen.contains s = true
      · rw [if_pos hseen]
        have hqs : s ≠ sid := fun hss =>
          hns (hss ▸ List.elem_iff.mp hseen)
        rw [ih seen hns]
        have hiff : (∃ p ∈ q :: rest, p.sheet_id = some sid) ↔
            (∃ p ∈ rest, p.sheet_id = some sid) := by
          constructor
          · rintro ⟨p, hp, hps⟩
            rcases List.mem_cons.mp hp with rfl | hp'
            · rw [hq] at hps
              injection hps with hps
              exact absurd hps hqs
            · exact ⟨p, hp', hps⟩
          · rintro ⟨p, hp, hps⟩
            exact ⟨p, List.mem_cons_of_mem _ hp, hps⟩
        rw [if_congr hiff rfl rfl]
      · rw [if_neg hseen]
        by_cases hss : s = sid
        · subst hss
          rw [List.countP_cons_of_pos _ _ (by simp [hq])]
          rw [unique_sheets_go_countP_zero s rest (s :: seen) (List.mem_cons_self s seen)]
          rw [if_pos ⟨q, List.mem_cons_self q rest, hq⟩]
        · rw [List.countP_cons_of_neg _ _ (by simp [hq, hss])]
          have hns2 : sid ∉ s :: seen := by
            intro hmem
            rcases List.mem_cons.mp hmem with h | h
            · exact hss h.symm
            · exact hns h
          rw [ih (s :: seen) hns2]
          have hiff : (∃ p ∈ q :: rest, p.sheet_id = some sid) ↔
              (∃ p ∈ rest, p.sheet_id = some sid) := by
            constructor
            · rintro ⟨p, hp, hps⟩
              rcases List.mem_cons.mp hp with rfl | hp'
              · rw [hq] at hps
                injection hps with hps
                exact absurd hps hss
              · exact ⟨p, hp', hps⟩
            · rintro ⟨p, hp, hps⟩
              exact ⟨p, List.mem_cons_of_mem _ hp, hps⟩
          rw [if_congr hiff rfl rfl]

/-- On a descending-sorted input the post kept for `sid` has the maximal
creation time among all input posts carrying `sid`. -/
theorem unique_sheets_go_max (sid : List Char) :
    ∀ (l : List SheetPost) (seen : List (List Char)),
      l.Pairwise (fun a b => b.created ≤ a.created) →
      ∀ p ∈ unique_sheets_go l seen, p.sheet_id = some sid →
      ∀ q ∈ l, q.sheet_id = some sid → q.created ≤ p.created := by
  intro l
  induction l with
  | nil => intro seen _ p hp; simp [unique_sheets_go] at hp
  | cons x rest ih =>
    intro seen hpw p hp hps q hq hqs
    rcases List.pairwise_cons.mp hpw with ⟨hx, hrest⟩
    unfold unique_sheets_go at hp
    cases hxid : x.sheet_id with
    | none =>
      simp only [hxid] at hp
      rcases List.mem_cons.mp hq with rfl | hq'
      · rw [hxid] at hqs; cases hqs
      · exact ih seen hrest p hp hps q hq' hqs
    | some s =>
      simp only [hxid] at hp
      by_cases hseen : seen.contains s = true
      · rw [if_pos hseen] at hp
        rcases List.mem_cons.mp hq with rfl | hq'
        · obtain ⟨s2, hs2, hns2⟩ := unique_sheets_go_not_seen rest seen p hp
          rw [hps] at hs2
          injection hs2 with hs2
          rw [hxid] at hqs
          injection hqs with hqs
          exact absurd (List.elem_iff.mp hseen) (by rw [hqs, hs2]; exact hns2)
        · exact ih seen hrest p hp hps q hq' hqs
      · rw [if_neg hseen] at hp
        rcases List.mem_cons.mp hp with rfl | hp'
        · rcases List.mem_cons.mp hq with rfl | hq'
          · exact le_refl _
          · exact hx q hq'
        · obtain ⟨s2, hs2, hns2⟩ := unique_sheets_go_not_seen rest (s :: seen) p hp'
          rw [hps] at hs2
          injection hs2 with hs2
          have hssid : s ≠ sid := fun hss =>
            hns2 (by rw [← hs2, hss]; exact List.mem_cons_self sid seen)
          rcases List.mem_cons.mp hq with rfl | hq'
          · rw [hxid] at hqs
            injection hqs with hqs
            exact absurd hqs hssid
          · exact ih (s :: seen) hrest p hp' hps q hq' hqs

/-- Claim C8 (amended): for every input containing a post that resolves
to document id `sid`, the pipeline's unique-documents pass
(`unique_sheets` after the descending-`created` sort) keeps exactly one
post for `sid`, and the kept post's creation time is maximal — the post
with the *earlier* creation time is the one dropped. -/
theorem c8_dedup_amended (posts : List SheetPost) (sid : List Char)
    (hex : ∃ p ∈ posts, p.sheet_id = some sid) :
    ((unique_sheets (sortDesc posts)).countP (fun p => p.sheet_id == some sid)) = 1 ∧
    (∀ p ∈ unique_sheets (sortDesc posts), p.sheet_id = some sid →
      ∀ q ∈ posts, q.sheet_id = some sid → q.created ≤ p.created) := by
  have hmem : ∃ p ∈ sortDesc posts, p.sheet_id = some sid := by
    obtain ⟨p, hp, hps⟩ := hex
    exact ⟨p, mem_sortDesc.mpr hp, hps⟩
  constructor
  · rw [unique_sheets, unique_sheets_go_countP sid (sortDesc posts) [] (by simp),
      if_pos hmem]
  · intro p hp hps q hq hqs
    exact unique_sheets_go_max sid (sortDesc posts) [] (sortDesc_pairwise posts)
      p hp hps q (mem_sortDesc.mpr hq) hqs

/-- The earlier-created of two posts sharing document id `X`. -/
def postEarly : SheetPost :=
  { id := String.toList "a", title := [], created := 1, shortlink := [],
    sheet_id := some (String.toList "X"),
    sheet_url := some (String.toList "https://docs.google.com/spreadsheets/d/X") }

/-- The later-created of two posts sharing document id `X`. -/
def postLate : SheetPost :=
  { id := String.toList "b", title := [], created := 2, shortlink := [],
    sheet_id := some (String.toList "X"),
    sheet_url := some (String.toList "https://docs.google.com/spreadsheets/d/X") }

/-- Witness for C8 (amended): on the two concrete posts sharing id `X`
the unique-documents set has exactly one entry for `X`. -/
theorem c8_dedup_amended_witness :
    ((unique_sheets (sortDesc [postEarly, postLate])).countP
      (fun p => p.sheet_id == some (String.toList "X"))) = 1 :=
  (c8_dedup_amended [postEarly, postLate] (String.toList "X")
    ⟨postEarly, by decide, by decide⟩).1

/-- Claim C8 counterexample: of two posts resolving to the same document
id, the pipeline keeps the *later*-created one (the first occurrence in
descending creation-time order) and drops the earlier one — refuting
"keeping the post with the later creation time dropped". -/
theorem c8_dedup_counterexample :
    unique_sheets (sortDesc [postEarly, postLate]) = [postLate] ∧
    postEarly.created < postLate.created := by
  exact ⟨by decide, by decide⟩

/-! ### Claim C5 : documentId / documentUrl invariant -/

/-- In every `SheetPost` that `parse_submissions` constructs (returned or
cache-written), a set `sheet_id` implies a set `sheet_url`. -/
theorem parse_submissions_id_implies_url (postCache : List (List Char))
    (extractId : List Char → Option (List Char)) :
    ∀ subs : List RawPost,
      (∀ sp ∈ (parse_submissions postCache extractId subs).sheet_posts,
        sp.sheet_id.isSome = true → sp.sheet_url.isSome = true) ∧
      (∀ k sp, (k, sp) ∈ (parse_submissions postCache extractId subs).writes →
        sp.sheet_id.isSome = true → sp.sheet_url.isSome = true) := by
  intro subs
  induction subs with
  | nil => exact ⟨fun sp hsp => by simp [parse_submissions] at hsp,
      fun k sp hk => by simp [parse_submissions] at hk⟩
  | cons post rest ih =>
    unfold parse_submissions
    by_cases hc : postCache.contains (postKey post.id) = true
    · rw [if_pos hc]
      exact ih
    · rw [if_neg hc]
      cases hf : find_sheet_url post with
      | error e =>
        exact ⟨fun sp hsp => by simp at hsp, fun k sp hk => by simp at hk⟩
      | ok urlOpt =>
        cases ha : post.author with
        | none =>
          exact ⟨fun sp hsp => by simp at hsp, fun k sp hk => by simp at hk⟩
        | some authorName =>
          cases urlOpt with
          | some u =>
            constructor
            · intro sp hsp
              rcases List.mem_cons.mp hsp with rfl | hsp'
              · intro _; rfl
              · exact ih.1 sp hsp'
            · intro k sp hk
              rcases List.mem_cons.mp hk with heq | hk'
              · injection heq with h1 h2
                subst h2
                intro _; rfl
              · exact ih.2 k sp hk'
          | none =>
            constructor
            · exact ih.1
            · intro k sp hk
              rcases List.mem_cons.mp hk with heq | hk'
              · injection heq with h1 h2
                subst h2
                intro habs
                simp at habs
              · exact ih.2 k sp hk'

/-- Claim C5 (amended): every `SheetPost` constructed and cached by the
ingestion pipeline has its document URL set whenever its document id is
set; the converse direction fails when a URL is found but no id can be
extracted from it. -/
theorem c5_id_url_amended (postCache : List (List Char))
    (extractId : List Char → Option (List Char)) (subs : List RawPost)
    (sp : SheetPost)
    (hsp : sp ∈ (parse_submissions postCache extractId subs).sheet_posts ∨
      ∃ k, (k, sp) ∈ (parse_submissions postCache extractId subs).writes)
    (hid : sp.sheet_id.isSome = true) : sp.sheet_url.isSome = true := by
  rcases hsp with h | ⟨k, h⟩
  · exact (parse_submissions_id_implies_url postCache extractId subs).1 sp h hid
  · exact (parse_submissions_id_implies_url postCache extractId subs).2 k sp h hid

/-- A post whose title carries a published-spreadsheet link (matched by
the `/spreadsheets/d/e/` pattern). -/
def pubLinkPost : RawPost :=
  { id := String.toList "w1",
    title := String.toList "https://docs.google.com/spreadsheets/d/e/WVZM4/pubhtml",
    created_utc := 0, shortlink := [], num_comments := 0, score := 0,
    author := some (String.toList "u"), author_flair_text := none,
    selftext := [], url := [], comments := [] }

/-- The `SheetPost` the pipeline constructs for `pubLinkPost`. -/
def pubLinkSheetPost : SheetPost :=
  { id := String.toList "w1",
    title := String.toList "https://docs.google.com/spreadsheets/d/e/WVZM4/pubhtml",
    created := 0, shortlink := [],
    author := some (mkAuthor (String.toList "u") none),
    sheet_id := some (String.toList "WVZM4"),
    sheet_url := some (String.toList "https://docs.google.com/spreadsheets/d/e/WVZM4/pubhtml") }

/-- Witness for C5 (amended): the concrete post with an extractable id
has its URL set. -/
theorem c5_id_url_amended_witness : pubLinkSheetPost.sheet_url.isSome = true :=
  c5_id_url_amended [] (fun _ => none) [pubLinkPost] pubLinkSheetPost
    (Or.inl (by decide)) (by decide)

/-- A post whose title carries a docs *document* link: the narrow
spreadsheet patterns fail and the generic gspread extractor raises
`NoValidUrlKeyFound` (oracle `none`), which `gen_doc_id` turns into
`None`. -/
def docLinkPost : RawPost :=
  { id := String.toList "p1",
    title := String.toList "https://docs.google.com/document/d/abc/edit",
    created_utc := 0, shortlink := [], num_comments := 0, score := 0,
    author := some (String.toList "u"), author_flair_text := none,
    selftext := [], url := [], comments := [] }

/-- Claim C5 counterexample: on `docLinkPost` the pipeline constructs and
caches a `SheetPost` whose document URL is set but whose document id is
`None` — refuting "document id set if and only if document URL set". -/
theorem c5_id_url_counterexample :
    ((parse_submissions [] (fun _ => none) [docLinkPost]).sheet_posts.map
      (fun sp => (sp.sheet_url.isSome, sp.sheet_id.isSome))) = [(true, false)] ∧
    ((parse_submissions [] (fun _ => none) [docLinkPost]).writes.map
      (fun w => (w.2.sheet_url.isSome, w.2.sheet_id.isSome))) = [(true, false)] := by
  exact ⟨by decide, by decide⟩

/-! ### Claim C6 : idempotence of clean_url -/

/-- `contains` is false exactly on non-members. -/
theorem contains_eq_false_iff {l : List Char} {a : Char} :
    l.contains a = false ↔ a ∉ l := by
  constructor
  · intro h hm
    have h2 : l.contains a = true := List.elem_iff.mpr hm
    rw [h] at h2
    cases h2
  · intro h
    cases hc : l.contains a
    · rfl
    · exact absurd (List.elem_iff.mp hc) h

/-- Unpacking a prefix relation at a cons pattern. -/
theorem prefixList_head {a : Char} {p s : List Char}
    (h : prefixList (a :: p) s = true) :
    ∃ t, s = a :: t ∧ prefixList p t = true := by
  cases s with
  | nil => simp [prefixList] at h
  | cons b t =>
    unfold prefixList at h
    rw [Bool.and_eq_true, beq_iff_eq] at h
    exact ⟨t, by rw [h.1], h.2⟩

/-- A successful `pyFindGo` points at an occurrence of the needle. -/
theorem pyFindGo_some_prefixList {needle : List Char} :
    ∀ (s : List Char) (i j : Nat), pyFindGo needle s i = some j →
      i ≤ j ∧ prefixList needle (s.drop (j - i)) = true := by
  intro s
  induction s with
  | nil =>
    intro i j h
    unfold pyFindGo at h
    by_cases hn : needle.isEmpty = true
    · rw [if_pos hn] at h
      injection h with h
      subst h
      refine ⟨le_refl _, ?_⟩
      cases needle with
      | nil => rfl
      | cons a as => cases hn
    · rw [if_neg hn] at h
      cases h
  | cons c cs ih =>
    intro i j h
    unfold pyFindGo at h
    by_cases hp : prefixList needle (c :: cs) = true
    · rw [if_pos hp] at h
      injection h with h
      subst h
      simpa using hp
    · rw [if_neg hp] at h
      obtain ⟨hij, hpre⟩ := ih (i + 1) j h
      refine ⟨by omega, ?_⟩
      have hji : j - i = (j - (i + 1)) + 1 := by omega
      rw [hji]
      simpa using hpre

/-- A substring occurrence gives the `find` index and the prefix fact. -/
theorem hasSubstr_prefixList_drop {needle s : List Char}
    (h : hasSubstr needle s = true) :
    ∃ j : Nat, prefixList needle (s.drop j) = true ∧ pyFind s needle = (j : Int) := by
  unfold hasSubstr at h
  cases hf : pyFindGo needle s 0 with
  | none => rw [hf] at h; cases h
  | some j =>
    obtain ⟨_, hpre⟩ := pyFindGo_some_prefixList s 0 j hf
    refine ⟨j, by simpa using hpre, ?_⟩
    unfold pyFind
    rw [hf]

/-- Head token of `splitWsGo` when the accumulator is non-empty. -/
theorem splitWsGo_head :
    ∀ (s acc : List Char), acc.isEmpty = false →
      (splitWsGo s acc).get? 0 =
        some (acc.reverse ++ s.takeWhile (fun c => !pyIsSpace c)) := by
  intro s
  induction s with
  | nil =>
    intro acc hacc
    simp [splitWsGo, hacc]
  | cons c cs ih =>
    intro acc hacc
    by_cases hsp : pyIsSpace c = true
    · simp [splitWsGo, hsp, hacc, List.takeWhile_cons]
    · have hspf : pyIsSpace c = false := by
        revert hsp; cases pyIsSpace c <;> simp
      unfold splitWsGo
      rw [hspf]
      simp only [Bool.false_eq_true, if_false]
      rw [ih (c :: acc) rfl]
      simp [List.takeWhile_cons, hspf]

/-- Head token of `str.split()` on a string starting with a non-space. -/
theorem pySplitWs_head {c : Char} {cs : List Char} (h : pyIsSpace c = false) :
    (pySplitWs (c :: cs)).get? 0 =
      some ((c :: cs).takeWhile (fun c => !pyIsSpace c)) := by
  unfold pySplitWs splitWsGo
  rw [h]
  simp only [Bool.false_eq_true, if_false]
  rw [splitWsGo_head cs [c] rfl]
  simp [List.takeWhile_cons, h]

/-- `takeWhile` keeps a list all of whose elements satisfy the predicate. -/
theorem takeWhile_eq_self_of_all {p : Char → Bool} :
    ∀ {s : List Char}, (∀ c ∈ s, p c = true) → s.takeWhile p = s := by
  intro s
  induction s with
  | nil => intro _; rfl
  | cons c cs ih =>
    intro h
    rw [List.takeWhile_cons, h c (by simp)]
    simp only [if_true]
    rw [ih (fun c hc => h c (List.mem_cons_of_mem _ hc))]

/-- A prefix whose characters all satisfy `q` survives `takeWhile q`. -/
theorem prefixList_takeWhile {q : Char → Bool} :
    ∀ {p s : List Char}, prefixList p s = true → (∀ c ∈ p, q c = true) →
      prefixList p (s.takeWhile q) = true := by
  intro p
  induction p with
  | nil => intro s _ _; rfl
  | cons a as ih =>
    intro s hp hq
    obtain ⟨t, rfl, hrest⟩ := prefixList_head hp
    rw [List.takeWhile_cons, hq a (by simp)]
    simp only [if_true]
    unfold prefixList
    rw [Bool.and_eq_true, beq_iff_eq]
    exact ⟨rfl, ih hrest (fun c hc => hq c (List.mem_cons_of_mem _ hc))⟩

/-- A prefix whose characters all satisfy `q` survives `filter q`. -/
theorem prefixList_filter {q : Char → Bool} :
    ∀ {p s : List Char}, prefixList p s = true → (∀ c ∈ p, q c = true) →
      prefixList p (s.filter q) = true := by
  intro p
  induction p with
  | nil => intro s _ _; rfl
  | cons a as ih =>
    intro s hp hq
    obtain ⟨t, rfl, hrest⟩ := prefixList_head hp
    rw [List.filter_cons_of_pos (hq a (by simp))]
    unfold prefixList
    rw [Bool.and_eq_true, beq_iff_eq]
    exact ⟨rfl, ih hrest (fun c hc => hq c (List.mem_cons_of_mem _ hc))⟩

/-- A prefix is no longer than the full list. -/
theorem prefixList_length_le :
    ∀ {p s : List Char}, prefixList p s = true → p.length ≤ s.length := by
  intro p
  induction p with
  | nil => intro s _; simp
  | cons a as ih =>
    intro s hp
    obtain ⟨t, rfl, hrest⟩ := prefixList_head hp
    simpa using ih hrest

/-- A proper prefix survives `dropLast`. -/
theorem prefixList_dropLast :
    ∀ {p s : List Char}, prefixList p s = true → p.length < s.length →
      prefixList p s.dropLast = true := by
  intro p
  induction p with
  | nil => intro s _ _; rfl
  | cons a as ih =>
    intro s hp hl
    obtain ⟨t, rfl, hrest⟩ := prefixList_head hp
    cases t with
    | nil => simp at hl
    | cons b bs =>
      show prefixList (a :: as) (a :: (b :: bs).dropLast) = true
      unfold prefixList
      rw [Bool.and_eq_true, beq_iff_eq]
      exact ⟨rfl, ih hrest (by simpa using hl)⟩

/-- A full-length prefix is the list itself. -/
theorem prefixList_eq_of_length :
    ∀ {p s : List Char}, prefixList p s = true → s.length ≤ p.length → p = s := by
  intro p
  induction p with
  | nil =>
    intro s _ hl
    cases s with
    | nil => rfl
    | cons b bs => simp at hl
  | cons a as ih =>
    intro s hp hl
    obtain ⟨t, rfl, hrest⟩ := prefixList_head hp
    rw [ih hrest (by simpa using hl)]

/-- A once-cleaned URL with no residual noise and no trailing period is a
fixed point of `clean_url`. -/
theorem clean_url_of_clean (r : List Char)
    (hpre : prefixList BASE_URL r = true)
    (hbr : r.contains ']' = false)
    (hbs : r.contains '\\' = false)
    (hbp : r.contains ')' = false)
    (hsp : ∀ c ∈ r, pyIsSpace c = false)
    (h2 : r.getLast? ≠ some '.') :
    clean_url r = some r := by
  have hbase : BASE_URL = 'h' :: ("ttps://docs.google.com/".toList) := rfl
  have hpre' := hpre
  rw [hbase] at hpre'
  obtain ⟨t, ht, _⟩ := prefixList_head hpre'
  subst ht
  have hgo : pyFindGo BASE_URL ('h' :: t) 0 = some 0 := by
    unfold pyFindGo
    rw [if_pos hpre]
  have hfind : pyFind ('h' :: t) BASE_URL = ((0 : Nat) : Int) := by
    unfold pyFind
    simp only [hgo]
  have htok : ('h' :: t).takeWhile (fun c => !pyIsSpace c) = 'h' :: t :=
    takeWhile_eq_self_of_all (fun c hc => by rw [hsp c hc]; rfl)
  have hlast : (('h' :: t).getLast? == some '.') = false := by
    cases hl : ('h' :: t).getLast? == some '.'
    · rfl
    · exact absurd (beq_iff_eq.mp hl) h2
  unfold clean_url
  rw [hfind]
  have hslice : pySliceFrom ('h' :: t) ((0 : Nat) : Int) = 'h' :: t := by
    simp [pySliceFrom]
  rw [hslice]
  simp only [pySplitWs_head (hsp 'h' (by simp)), htok, hbr, hbs, hbp, hlast,
    Bool.false_eq_true, if_false]

/-- Structure of a successful `clean_url` result: it starts with the base
sharing URL, contains no whitespace, and is free of `]`, `\` and `)`. -/
theorem clean_url_some (s r : List Char) (hb : hasSubstr BASE_URL s = true)
    (h1 : clean_url s = some r) :
    prefixList BASE_URL r = true ∧ r.contains ']' = false ∧
    r.contains '\\' = false ∧ r.contains ')' = false ∧
    (∀ c ∈ r, pyIsSpace c = false) := by
  obtain ⟨j, hpre, hfind⟩ := hasSubstr_prefixList_drop hb
  unfold clean_url at h1
  rw [hfind] at h1
  have hslice : pySliceFrom s ((j : Nat) : Int) = s.drop j := by
    unfold pySliceFrom
    rw [if_pos (Int.ofNat_zero_le j)]
    rfl
  rw [hslice] at h1
  have hbase : BASE_URL = 'h' :: ("ttps://docs.google.com/".toList) := rfl
  have hpre' := hpre
  rw [hbase] at hpre'
  obtain ⟨t, hdrop, _⟩ := prefixList_head hpre'
  rw [hdrop] at h1 hpre
  simp only [pySplitWs_head (show pyIsSpace 'h' = false by decide)] at h1
  set tok := ('h' :: t).takeWhile (fun c => !pyIsSpace c) with htokdef
  have htoksp : ∀ c ∈ tok, pyIsSpace c = false := by
    intro c hc
    have hmt := List.mem_takeWhile_imp hc
    revert hmt
    cases pyIsSpace c <;> simp
  have htokpre : prefixList BASE_URL tok = true :=
    prefixList_takeWhile hpre (by decide)
  obtain ⟨u1, hu1eq, hu1sp, hu1pre, hu1br⟩ :
      ∃ u1, (if tok.contains ']' then tok.takeWhile (fun c => !(c == ']')) else tok) = u1 ∧
        (∀ c ∈ u1, pyIsSpace c = false) ∧ prefixList BASE_URL u1 = true ∧
        ']' ∉ u1 := by
    by_cases hc : tok.contains ']' = true
    · refine ⟨_, by rw [if_pos hc], ?_, prefixList_takeWhile htokpre (by decide), ?_⟩
      · intro c hcm
        exact htoksp c (List.takeWhile_subset _ hcm)
      · intro hm
        have hmt := List.mem_takeWhile_imp hm
        simp at hmt
    · have hcf : tok.contains ']' = false := by
        revert hc; cases tok.contains ']' <;> simp
      exact ⟨tok, by rw [if_neg hc], htoksp, htokpre, contains_eq_false_iff.mp hcf⟩
  rw [hu1eq] at h1
  obtain ⟨u2, hu2eq, hu2sp, hu2pre, hu2br⟩ :
      ∃ u2, (if u1.getLast? == some '.' then u1.dropLast else u1) = u2 ∧
        (∀ c ∈ u2, pyIsSpace c = false) ∧ prefixList BASE_URL u2 = true ∧
        ']' ∉ u2 := by
    by_cases hc : (u1.getLast? == some '.') = true
    · refine ⟨_, by rw [if_pos hc],
        fun c hcm => hu1sp c (List.dropLast_subset _ hcm), ?_,
        fun hm => hu1br (List.dropLast_subset _ hm)⟩
      apply prefixList_dropLast hu1pre
      rcases lt_or_eq_of_le (prefixList_length_le hu1pre) with h | h
      · exact h
      · exfalso
        have heq := prefixList_eq_of_length hu1pre (le_of_eq h.symm)
        rw [← heq] at hc
        exact absurd hc (by decide)
    · exact ⟨u1, by rw [if_neg hc], hu1sp, hu1pre, hu1br⟩
  rw [hu2eq] at h1
  obtain ⟨u3, hu3eq, hu3sp, hu3pre, hu3br, hu3bs⟩ :
      ∃ u3, (if u2.contains '\\' then
          (u2.filter (fun c => !(c == ')'))).filter (fun c => !(c == '\\'))
        else u2) = u3 ∧
        (∀ c ∈ u3, pyIsSpace c = false) ∧ prefixList BASE_URL u3 = true ∧
        ']' ∉ u3 ∧ '\\' ∉ u3 := by
    by_cases hc : u2.contains '\\' = true
    · refine ⟨_, by rw [if_pos hc], ?_, ?_, ?_, ?_⟩
      · intro c hcm
        exact hu2sp c (List.filter_subset' _ (List.filter_subset' _ hcm))
      · exact prefixList_filter (prefixList_filter hu2pre (by decide)) (by decide)
      · intro hm
        exact hu2br (List.filter_subset' _ (List.filter_subset' _ hm))
      · intro hm
        have hpm := (List.mem_filter.mp hm).2
        simp at hpm
    · have hcf : u2.contains '\\' = false := by
        revert hc; cases u2.contains '\\' <;> simp
      exact ⟨u2, by rw [if_neg hc], hu2sp, hu2pre, hu2br,
        contains_eq_false_iff.mp hcf⟩
  rw [hu3eq] at h1
  obtain ⟨u4, hu4eq, hu4sp, hu4pre, hu4br, hu4bs, hu4bp⟩ :
      ∃ u4, (if u3.contains ')' then u3.filter (fun c => !(c == ')')) else u3) = u4 ∧
        (∀ c ∈ u4, pyIsSpace c = false) ∧ prefixList BASE_URL u4 = true ∧
        ']' ∉ u4 ∧ '\\' ∉ u4 ∧ ')' ∉ u4 := by
    by_cases hc : u3.contains ')' = true
    · refine ⟨_, by rw [if_pos hc], ?_, prefixList_filter hu3pre (by decide), ?_, ?_, ?_⟩
      · intro c hcm
        exact hu3sp c (List.filter_subset' _ hcm)
      · intro hm
        exact hu3br (List.filter_subset' _ hm)
      · intro hm
        exact hu3bs (List.filter_subset' _ hm)
      · intro hm
        have hpm := (List.mem_filter.mp hm).2
        simp at hpm
    · have hcf : u3.contains ')' = false := by
        revert hc; cases u3.contains ')' <;> simp
      exact ⟨u3, by rw [if_neg hc], hu3sp, hu3pre, hu3br, hu3bs,
        contains_eq_false_iff.mp hcf⟩
  rw [hu4eq] at h1
  injection h1 with h1
  subst h1
  exact ⟨hu4pre, contains_eq_false_iff.mpr hu4br, contains_eq_false_iff.mpr hu4bs,
    contains_eq_false_iff.mpr hu4bp, hu4sp⟩

/-- Claim C6 (amended): for every input containing the sharing-domain
substring, `clean_url` is idempotent whenever its first result does not
still end in a period; a result can retain a trailing period (for example
after two trailing periods, or a period followed by a parenthesis),
because each application strips only a single trailing period. -/
theorem c6_clean_url_amended (s r : List Char)
    (hb : hasSubstr BASE_URL s = true)
    (h1 : clean_url s = some r)
    (h2 : r.getLast? ≠ some '.') :
    clean_url r = some r := by
  obtain ⟨hpre, hbr, hbs, hbp, hsp⟩ := clean_url_some s r hb h1
  exact clean_url_of_clean r hpre hbr hbs hbp hsp h2

/-- Witness for C6 (amended): a URL with trailing bracket noise cleans to
a fixed point of `clean_url`. -/
theorem c6_clean_url_amended_witness :
    clean_url (String.toList "https://docs.google.com/x") =
      some (String.toList "https://docs.google.com/x") :=
  c6_clean_url_amended (String.toList "https://docs.google.com/x]. tail")
    (String.toList "https://docs.google.com/x") (by decide) (by decide) (by decide)

/-- Claim C6 counterexample: on an input with two trailing periods a
single application strips only one of them, so the second application
strips another — `clean_url` is not idempotent on inputs with trailing
`.` noise. -/
theorem c6_clean_url_counterexample :
    clean_url (String.toList "https://docs.google.com/x..") =
      some (String.toList "https://docs.google.com/x.") ∧
    clean_url (String.toList "https://docs.google.com/x.") =
      some (String.toList "https://docs.google.com/x") ∧
    String.toList "https://docs.google.com/x." ≠ String.toList "https://docs.google.com/x" := by
  exact ⟨by decide, by decide, by decide⟩

/-- A grid whose first canonical-bearing row has too few matches while a
later row would have more than 2. -/
def dfEarlyWeakRow : DataFrame :=
  ⟨["a", "b", "c"].map String.toList,
   [(["price", "x", "y"].map (fun s => some s.toList)),
    (["price", "mold", "plastic"].map (fun s => some s.toList))]⟩

/-- Witness for C10: on `dfEarlyWeakRow` the scan stops at row 0 (a data
row containing `price` with only 1 distinct canonical match), so
`header_find` reports not-found even though row 1 carries 3 canonical
matches. -/
theorem c10_first_candidate_row_witness :
    header_find dfEarlyWeakRow = none ∧
    2 < header_match_count
      (((dfEarlyWeakRow.rows.getD 1 []).map (fun c => c.getD [])).map pyLowerStrip) :=
  ⟨(c10_first_candidate_row dfEarlyWeakRow 0 (by decide)).2 (by decide) (by decide),
   by decide⟩
